import Mathlib

/-!
Verification of the studylib caching and library-introspection subsystem.

The development shallowly embeds the TypeScript sources:
* `CacheManager` (file-based persistent cache store: construction defaults,
  the singleton `getInstance`, `get`/`set`/`delete`/`clear`, TTL expiry,
  size-bounded eviction, and the base64 cache-file-name encoding),
* `RequireLibraryContext` (library name validation, the in-memory LRU
  metadata tier, and the content-hash-keyed `context`/`getPackageInfo`),
* `AIResponseCache.generateCacheKey`.

Filesystem and module-loading effects are modelled by explicit state passing
(association lists of files keyed by path) together with environments of
injected primitive outcomes, so that every definition is executable.
-/

namespace Studylib

open scoped List

/-- Error codes of `ErrorCode` in StudylibError.ts. -/
inductive ErrorCode where
  | CONFIG_ERROR
  | API_ERROR
  | VALIDATION_ERROR
  | PARSING_ERROR
  | LIBRARY_NOT_FOUND
  | DOCUMENTATION_ERROR
deriving DecidableEq

/-- Structured error carrying a message and an `ErrorCode`, as `StudylibError`. -/
structure StudylibError where
  message : String
  code : ErrorCode
deriving DecidableEq

/-- Configuration options accepted by the `CacheManager` constructor
(`CacheOptions` in CacheManager.ts); every field is optional. -/
structure CacheOptions where
  cacheDir : Option String := none
  ttl : Option Nat := none
  maxSize : Option Nat := none
deriving DecidableEq

/-- Resolved configuration held by a constructed `CacheManager`
(its `cacheDir`, `ttl`, `maxSize` readonly fields). -/
structure CacheConfig where
  cacheDir : String
  ttl : Nat
  maxSize : Nat
deriving DecidableEq

/-- JavaScript `a || d` for an optional string `a`: the empty string is falsy. -/
def strOrDefault (v : Option String) (d : String) : String :=
  match v with
  | none => d
  | some s => if s = "" then d else s

/-- JavaScript `a || d` for an optional number `a`: zero is falsy. -/
def natOrDefault (v : Option Nat) (d : Nat) : Nat :=
  match v with
  | none => d
  | some n => if n = 0 then d else n

/-- `path.join` restricted to plain segments, as used by the sources. -/
def pathJoin (a b : String) : String := a ++ "/" ++ b

/-- Default TTL of the cache manager: 24 hours in milliseconds. -/
def defaultTtl : Nat := 24 * 60 * 60 * 1000

/-- Default maximum cache directory size: 100MB in bytes. -/
def defaultMaxSize : Nat := 100 * 1024 * 1024

/-- The `CacheManager` private constructor: each configuration field falls back
to its default when absent or falsy (`options?.x || default`). `home` stands
for `os.homedir()`. -/
def mkCacheManager (home : String) (options : Option CacheOptions) : CacheConfig :=
  { cacheDir := strOrDefault (options.bind (fun o => o.cacheDir))
      (pathJoin (pathJoin home ".studylib") "cache")
    ttl := natOrDefault (options.bind (fun o => o.ttl)) defaultTtl
    maxSize := natOrDefault (options.bind (fun o => o.maxSize)) defaultMaxSize }

/-- `CacheManager.getInstance`: returns the already-constructed singleton when
one exists (ignoring the `options` argument), otherwise constructs it with
`options`. The static instance slot is passed and returned explicitly. -/
def CacheManager.getInstance (home : String) (inst : Option CacheConfig)
    (options : Option CacheOptions) : CacheConfig × Option CacheConfig :=
  match inst with
  | some c => (c, some c)
  | none =>
    let c := mkCacheManager home options
    (c, some c)

/-- The options the `RequireLibraryContext` constructor passes to
`CacheManager.getInstance`: the library-cache subdirectory and a 7-day TTL. -/
def libraryCacheOptions (home : String) : CacheOptions :=
  { cacheDir := some (pathJoin (pathJoin home ".studylib") "library-cache")
    ttl := some (7 * 24 * 60 * 60 * 1000)
    maxSize := none }

/-- The options the `AIResponseCache` constructor passes to
`CacheManager.getInstance`: the ai-cache subdirectory, 30-day TTL, 500MB. -/
def aiCacheOptions (home : String) : CacheOptions :=
  { cacheDir := some (pathJoin (pathJoin home ".studylib") "ai-cache")
    ttl := some (30 * 24 * 60 * 60 * 1000)
    maxSize := some (500 * 1024 * 1024) }

/-! ### Cache file name encoding

`CacheManager.getCacheFilePath` derives a file name from a key by UTF-8
encoding the key, base64-encoding the bytes (`Buffer.toString('base64')`),
and replacing every occurrence of `/`, `+` or `=` with `_`. -/

/-- UTF-8 encoding of a single Unicode scalar value, as a list of byte values. -/
def utf8Char (c : Char) : List Nat :=
  let n := c.toNat
  if n < 128 then [n]
  else if n < 2048 then [192 + n / 64, 128 + n % 64]
  else if n < 65536 then [224 + n / 4096, 128 + n / 64 % 64, 128 + n % 64]
  else [240 + n / 262144, 128 + n / 4096 % 64, 128 + n / 64 % 64, 128 + n % 64]

/-- UTF-8 encoding of a string (what `Buffer.from(key)` produces). -/
def utf8Encode (s : String) : List Nat :=
  (s.toList.map utf8Char).flatten

/-- The standard base64 alphabet, as a function from a 6-bit index. -/
def b64Char (i : Nat) : Char :=
  if i < 26 then Char.ofNat (65 + i)
  else if i < 52 then Char.ofNat (97 + (i - 26))
  else if i < 62 then Char.ofNat (48 + (i - 52))
  else if i = 62 then '+'
  else '/'

/-- Base64 encoding of a byte list, three bytes to four characters, with
`=` padding. -/
def b64Chunks : List Nat → List Char
  | [] => []
  | [a] => [b64Char (a / 4), b64Char (a % 4 * 16), '=', '=']
  | [a, b] => [b64Char (a / 4), b64Char (a % 4 * 16 + b / 16), b64Char (b % 16 * 4), '=']
  | a :: b :: c :: rest =>
    b64Char (a / 4) :: b64Char (a % 4 * 16 + b / 16) :: b64Char (b % 16 * 4 + c / 64) ::
      b64Char (c % 64) :: b64Chunks rest

/-- The `.replace(/[/+=]/g, '_')` character substitution. -/
def sanitizeChar (c : Char) : Char :=
  if c = '/' ∨ c = '+' ∨ c = '=' then '_' else c

/-- The "safe key" computed by `getCacheFilePath`: base64 of the UTF-8 bytes
with `/`, `+`, `=` all replaced by `_`. -/
def encodeKey (key : String) : String :=
  String.mk ((b64Chunks (utf8Encode key)).map sanitizeChar)

/-- `CacheManager.getCacheFilePath`: the cache entry file path for a key. -/
def getCacheFilePath (cacheDir key : String) : String :=
  pathJoin cacheDir (encodeKey key ++ ".json")

example : encodeKey "foo" = "Zm9v" := by decide
example : encodeKey "aa>" = "YWE_" := by decide
example : encodeKey "aa?" = "YWE_" := by decide

/-- Inverse of the base64 alphabet. -/
def b64CharInv (c : Char) : Nat :=
  let n := c.toNat
  if 65 ≤ n ∧ n ≤ 90 then n - 65
  else if 97 ≤ n ∧ n ≤ 122 then n - 97 + 26
  else if 48 ≤ n ∧ n ≤ 57 then n - 48 + 52
  else if c = '+' then 62
  else 63

/-- Base64 decoding, a left inverse of `b64Chunks` used to establish where
the file-name encoding is injective. -/
def b64Decode : List Char → List Nat
  | c1 :: c2 :: c3 :: c4 :: rest =>
    if c3 = '=' then [b64CharInv c1 * 4 + b64CharInv c2 / 16]
    else if c4 = '=' then
      [b64CharInv c1 * 4 + b64CharInv c2 / 16,
       b64CharInv c2 % 16 * 16 + b64CharInv c3 / 4]
    else
      (b64CharInv c1 * 4 + b64CharInv c2 / 16) ::
        (b64CharInv c2 % 16 * 16 + b64CharInv c3 / 4) ::
        (b64CharInv c3 % 4 * 64 + b64CharInv c4) ::
        b64Decode rest
  | _ => []

/-- Undoes the `_` substitution where that is unambiguous. -/
def desanitizeChar (c : Char) : Char := if c = '_' then '=' else c

/-! ### Persistent cache store state

The cache directory is modelled as an association list from file path to the
file's contents (`{timestamp, value}`), byte size and last-access time, in
directory-listing order. Fallible filesystem primitives are driven by an
`FsEnv` of injected outcomes; `okEnv` is the fault-free environment. -/

/-- One persisted `{ timestamp, value }` record (`CacheManager.set`'s `data`). -/
structure CacheEntry (V : Type) where
  timestamp : Nat
  value : V
deriving DecidableEq

/-- One file of the cache directory: its parsed entry, its byte size
(`stats.size`) and its last access time (`stats.atime`). -/
structure CacheFile (V : Type) where
  entry : CacheEntry V
  size : Nat
  atime : Nat
deriving DecidableEq

/-- The cache directory: file paths with their files, in listing order. -/
abbrev Store (V : Type) := List (String × CacheFile V)

/-- Outcomes of the fallible filesystem primitives: a `true` result makes the
corresponding call throw. -/
structure FsEnv where
  readFails : String → Bool
  parseFails : String → Bool
  writeFails : String → Bool
  unlinkFails : String → Bool
  readdirFails : Bool
  statFails : String → Bool
  mkdirFails : Bool

/-- The environment in which no filesystem primitive fails. -/
def okEnv : FsEnv :=
  ⟨fun _ => false, fun _ => false, fun _ => false, fun _ => false, false, fun _ => false, false⟩

/-- Looks a file up by path (`fs.existsSync` / reading the file). -/
def lookupFile {V : Type} (st : Store V) (p : String) : Option (CacheFile V) :=
  (st.find? (fun f => f.1 == p)).map (fun f => f.2)

/-- Removes the file at a path (`fs.promises.unlink`). -/
def removeFile {V : Type} (st : Store V) (p : String) : Store V :=
  st.filter (fun f => f.1 != p)

/-- Updates the last-access time of the file at a path, as the operating
system does when the file is read. -/
def touchFile {V : Type} (st : Store V) (p : String) (now : Nat) : Store V :=
  st.map (fun f => if f.1 == p then (f.1, ⟨f.2.entry, f.2.size, now⟩) else f)

/-- Writes a file: an existing file at the path is overwritten in place, a
new file is appended to the directory listing (`fs.promises.writeFile`). -/
def writeFile {V : Type} (st : Store V) (p : String) (file : CacheFile V) : Store V :=
  if (lookupFile st p).isSome then
    st.map (fun f => if f.1 == p then (p, file) else f)
  else st ++ [(p, file)]

/-- Sum of the sizes of all files in the directory. -/
def totalSize {V : Type} (st : Store V) : Nat :=
  (st.map (fun f => f.2.size)).sum

/-- The directory has no two files with the same path. -/
def keysNodup {V : Type} (st : Store V) : Prop :=
  (st.map (fun f => f.1)).Nodup

/-- `CacheManager.delete`: unlink the entry file if present; an unlink
failure is caught and swallowed (the file stays). -/
def CacheManager.delete {V : Type} (env : FsEnv) (cfg : CacheConfig) (st : Store V)
    (key : String) : Store V :=
  let p := getCacheFilePath cfg.cacheDir key
  if (lookupFile st p).isSome then
    if env.unlinkFails p then st else removeFile st p
  else st

/-- The caller-visible result of `CacheManager.delete`: the catch block
swallows every failure, so the method always resolves. -/
def CacheManager.deleteE {V : Type} (env : FsEnv) (cfg : CacheConfig) (st : Store V)
    (key : String) : Except StudylibError (Store V) :=
  Except.ok (CacheManager.delete env cfg st key)

/-- The try-block of `CacheManager.get`: miss when the file is absent; a
read or parse failure throws; an entry older than the TTL is deleted lazily
and reported absent; otherwise the value is returned. Reading refreshes the
file's access time. -/
def CacheManager.getAttempt {V : Type} (env : FsEnv) (cfg : CacheConfig) (st : Store V)
    (key : String) (now : Nat) : Except Unit (Store V × Option V) :=
  let p := getCacheFilePath cfg.cacheDir key
  match lookupFile st p with
  | none => Except.ok (st, none)
  | some f =>
    if env.readFails p then Except.error ()
    else if env.parseFails p then Except.error ()
    else
      let st1 := touchFile st p now
      if now - f.entry.timestamp > cfg.ttl then
        Except.ok (CacheManager.delete env cfg st1 key, none)
      else
        Except.ok (st1, some f.entry.value)

/-- `CacheManager.get`: the try-block result, with every failure caught and
degraded to a miss. -/
def CacheManager.get {V : Type} (env : FsEnv) (cfg : CacheConfig) (st : Store V)
    (key : String) (now : Nat) : Store V × Option V :=
  match CacheManager.getAttempt env cfg st key now with
  | Except.ok r => r
  | Except.error _ => (st, none)

/-- The caller-visible result of `CacheManager.get`. -/
def CacheManager.getE {V : Type} (env : FsEnv) (cfg : CacheConfig) (st : Store V)
    (key : String) (now : Nat) : Except StudylibError (Store V × Option V) :=
  match CacheManager.getAttempt env cfg st key now with
  | Except.ok r => Except.ok r
  | Except.error _ => Except.ok (st, none)

/-- `CacheManager.getCacheSize`: sums the sizes from `readdir` + `stat`; any
failure is caught and reported as size 0. -/
def CacheManager.getCacheSize {V : Type} (env : FsEnv) (st : Store V) : Nat :=
  if env.readdirFails then 0
  else if st.any (fun f => env.statFails f.1) then 0
  else totalSize st

/-- Stable insertion step: a newly arriving element is placed after every
element it compares `le`-greater-or-equal to. -/
def insertBy {α : Type} (le : α → α → Bool) (a : α) : List α → List α
  | [] => [a]
  | b :: l => if le b a then b :: insertBy le a l else a :: b :: l

/-- Stable sort by a Boolean comparator (`Array.prototype.sort` is stable),
modelled as insertion sort, which any stable comparison sort agrees with. -/
def sortBy {α : Type} (le : α → α → Bool) (l : List α) : List α :=
  l.foldl (fun acc a => insertBy le a acc) []

/-- Directory listing sorted by ascending last-access time (the
`fileStats.sort` comparator), stably. -/
def sortByAtime {V : Type} (l : List (String × CacheFile V)) : List (String × CacheFile V) :=
  sortBy (fun a b => decide (a.2.atime ≤ b.2.atime)) l

/-- The deletion loop of `ensureCacheSpace`: walks the atime-sorted listing,
deleting files while the running size exceeds the limit. A failing unlink
throws into the surrounding catch, aborting the pass with the deletions so
far kept. -/
def evictLoop {V : Type} (env : FsEnv) (maxSize : Nat) :
    List (String × CacheFile V) → Nat → Store V → Store V
  | [], _, st => st
  | (p, f) :: rest, size, st =>
    if size ≤ maxSize then st
    else if env.unlinkFails p then st
    else evictLoop env maxSize rest (size - f.size) (removeFile st p)

/-- `CacheManager.ensureCacheSpace`: when the directory size exceeds
`maxSize`, deletes oldest-accessed files until it no longer does. Failures
inside the pass are caught and swallowed. -/
def CacheManager.ensureCacheSpace {V : Type} (env : FsEnv) (cfg : CacheConfig)
    (st : Store V) : Store V :=
  let currentSize := CacheManager.getCacheSize env st
  if currentSize > cfg.maxSize then
    if env.readdirFails then st
    else if st.any (fun f => env.statFails f.1) then st
    else evictLoop env cfg.maxSize (sortByAtime st) currentSize st
  else st

/-- `CacheManager.set`: runs `ensureCacheSpace`, then writes the
`{timestamp, value}` record. `valueSize` gives the byte size of the
serialized record. A write failure is caught and swallowed (the evictions
already performed remain). -/
def CacheManager.set {V : Type} (env : FsEnv) (cfg : CacheConfig) (valueSize : V → Nat)
    (st : Store V) (key : String) (v : V) (now : Nat) : Store V :=
  let st1 := CacheManager.ensureCacheSpace env cfg st
  let p := getCacheFilePath cfg.cacheDir key
  if env.writeFails p then st1
  else writeFile st1 p ⟨⟨now, v⟩, valueSize v, now⟩

/-- The caller-visible result of `CacheManager.set`: the catch block
swallows every failure, so the method always resolves. -/
def CacheManager.setE {V : Type} (env : FsEnv) (cfg : CacheConfig) (valueSize : V → Nat)
    (st : Store V) (key : String) (v : V) (now : Nat) : Except StudylibError (Store V) :=
  Except.ok (CacheManager.set env cfg valueSize st key v now)

/-- `CacheManager.clear`: unlinks every listed file; if the directory cannot
be listed or any unlink fails, a `CONFIG_ERROR` is thrown to the caller
(files whose unlink failed remain). -/
def CacheManager.clear {V : Type} (env : FsEnv) (st : Store V) :
    Store V × Option StudylibError :=
  if env.readdirFails then
    (st, some ⟨"Failed to clear cache", ErrorCode.CONFIG_ERROR⟩)
  else
    let st2 := st.filter (fun f => env.unlinkFails f.1)
    if st.any (fun f => env.unlinkFails f.1) then
      (st2, some ⟨"Failed to clear cache", ErrorCode.CONFIG_ERROR⟩)
    else (st2, none)

/-- `CacheManager.initializeCache`: creates the cache directory if missing;
a creation failure propagates as `CONFIG_ERROR`. -/
def CacheManager.initializeCache (env : FsEnv) (dirExists : Bool) : Option StudylibError :=
  if !dirExists && env.mkdirFails then
    some ⟨"Failed to initialize cache directory", ErrorCode.CONFIG_ERROR⟩
  else none

/-! ### Path normalization and library-name validation

`RequireLibraryContext.validateLibraryName` normalizes the name with
`path.normalize` (POSIX semantics) and rejects names whose normalization
contains the substring `..` or is absolute. -/

/-- Splits a character list on a separator character. -/
def splitChar (sep : Char) : List Char → List (List Char)
  | [] => [[]]
  | c :: rest =>
    let r := splitChar sep rest
    if c = sep then [] :: r
    else
      match r with
      | [] => [[c]]
      | s :: ss => (c :: s) :: ss

/-- One step of `path.normalize`'s segment processing: empty and `.` segments
are dropped; `..` pops the previous segment when one is available, otherwise
it is kept only for relative paths (`allowAboveRoot`). The stack holds the
segments most recent first. -/
def stepSeg (allowAboveRoot : Bool) (stack : List (List Char)) (seg : List Char) :
    List (List Char) :=
  if seg = [] ∨ seg = ['.'] then stack
  else if seg = ['.', '.'] then
    match stack with
    | [] => if allowAboveRoot then [['.', '.']] else []
    | top :: rest =>
      if top = ['.', '.'] then
        (if allowAboveRoot then ['.', '.'] :: top :: rest else top :: rest)
      else rest
  else seg :: stack

/-- `path.normalize` (POSIX): resolves `.` and `..` segments, collapses
separators, preserves a trailing separator, and returns `.` for an empty
result. -/
def pathNormalize (p : String) : String :=
  if p = "" then "."
  else
    let cs := p.toList
    let isAbs := cs.head? = some '/'
    let trailing := cs.getLast? = some '/'
    let stack := (splitChar '/' cs).foldl (stepSeg !isAbs) []
    let core := List.intercalate ['/'] stack.reverse
    if core = [] then
      if isAbs then "/" else if trailing then "./" else "."
    else
      let core2 := if trailing then core ++ ['/'] else core
      String.mk (if isAbs then '/' :: core2 else core2)

example : pathNormalize "../etc" = "../etc" := by decide
example : pathNormalize "a/b/../c" = "a/c" := by decide
example : pathNormalize "/a//b/" = "/a/b/" := by decide
example : pathNormalize "a/.." = "." := by decide

/-- Boolean prefix test on lists. -/
def startsList : List Char → List Char → Bool
  | [], _ => true
  | _ :: _, [] => false
  | a :: ps, b :: ls => a == b && startsList ps ls

/-- Boolean substring (contiguous sublist) test, `String.includes`. -/
def containsSub (pat : List Char) : List Char → Bool
  | [] => pat.isEmpty
  | c :: rest => startsList pat (c :: rest) || containsSub pat rest

/-- `RequireLibraryContext.validateLibraryName`: rejects the empty name, and
any name whose normalization contains `..` or is an absolute path, with a
`VALIDATION_ERROR`. -/
def validateLibraryName (name : String) : Option StudylibError :=
  if name = "" then
    some ⟨"Library name must be a non-empty string", ErrorCode.VALIDATION_ERROR⟩
  else if containsSub ['.', '.'] (pathNormalize name).toList
      ∨ (pathNormalize name).toList.head? = some '/' then
    some ⟨"Invalid library name: must not contain path traversal or absolute paths",
      ErrorCode.VALIDATION_ERROR⟩
  else none

example : validateLibraryName "lodash" = none := by decide
example : (validateLibraryName "../etc").isSome := by decide

/-! ### In-memory metadata cache tier

`RequireLibraryContext.memoryCache` is a JavaScript `Map` from library name
to `LibraryCache`, modelled as an association list in insertion order.
Exports and package descriptors are opaque type parameters `E` and `P`. -/

/-- A `LibraryCache` record of RequireLibraryContext.ts. -/
structure LibraryCache (E P : Type) where
  exports : E
  packageInfo : Option P
  lastAccessed : Nat
  hasDefaultExport : Bool
  fileHash : String
deriving DecidableEq

/-- The in-memory cache: names with their entries, in `Map` insertion order. -/
abbrev MemCache (E P : Type) := List (String × LibraryCache E P)

/-- The freshness window of the in-memory tier: 5 minutes in milliseconds. -/
def memoryCacheTimeout : Nat := 5 * 60 * 1000

/-- The capacity bound of the in-memory tier. -/
def maxMemoryCacheSize : Nat := 50

/-- `Map.get` on the in-memory cache. -/
def lookupMem {E P : Type} (m : MemCache E P) (k : String) : Option (LibraryCache E P) :=
  (m.find? (fun e => e.1 == k)).map (fun e => e.2)

/-- `Map.set`: replaces the value of an existing key in place, appends a new
key at the end. -/
def mapSet {E P : Type} (m : MemCache E P) (k : String) (v : LibraryCache E P) :
    MemCache E P :=
  if m.any (fun e => e.1 == k) then
    m.map (fun e => if e.1 == k then (k, v) else e)
  else m ++ [(k, v)]

/-- `Map.delete`. -/
def mapDelete {E P : Type} (m : MemCache E P) (k : String) : MemCache E P :=
  m.filter (fun e => e.1 != k)

/-- The capacity loop of `cleanMemoryCache`: while the cache is over
capacity, deletes the next key of the ascending-`lastAccessed` listing. -/
def evictOldest {E P : Type} : List (String × LibraryCache E P) → MemCache E P → MemCache E P
  | [], m => m
  | (k, _) :: rest, m =>
    if m.length > maxMemoryCacheSize then evictOldest rest (mapDelete m k) else m

/-- `RequireLibraryContext.cleanMemoryCache`: drops entries whose
`lastAccessed` is older than the freshness window, then, if still over
capacity, deletes entries in ascending `lastAccessed` order until at or
under capacity. -/
def cleanMemoryCache {E P : Type} (now : Nat) (m : MemCache E P) : MemCache E P :=
  let m1 := m.filter (fun e => !decide (now - e.2.lastAccessed > memoryCacheTimeout))
  if m1.length > maxMemoryCacheSize then
    evictOldest (sortBy (fun a b => decide (a.2.lastAccessed ≤ b.2.lastAccessed)) m1) m1
  else m1

/-- `RequireLibraryContext.setInMemoryCache`: a cleanup pass, then `Map.set`. -/
def setInMemoryCache {E P : Type} (now : Nat) (m : MemCache E P) (name : String)
    (cache : LibraryCache E P) : MemCache E P :=
  mapSet (cleanMemoryCache now m) name cache

/-- `RequireLibraryContext.getFromMemoryCache`: a hit refreshes the entry's
`lastAccessed` (sliding expiry) and re-`set`s it; returns the refreshed
entry. -/
def getFromMemoryCache {E P : Type} (now : Nat) (m : MemCache E P) (name : String) :
    Option (LibraryCache E P) × MemCache E P :=
  match lookupMem m name with
  | none => (none, m)
  | some c =>
    let c2 : LibraryCache E P := ⟨c.exports, c.packageInfo, now, c.hasDefaultExport, c.fileHash⟩
    (some c2, mapSet m name c2)

/-! ### Content-addressed library resolver

`RequireLibraryContext.context` and `getPackageInfo` over an environment of
module-system collaborators (`require.resolve`, `require`, file hashing —
the spec's external interfaces, §6) and a state holding the two cache tiers
and a log of module loads. The persistent tier stores either a
`LibraryCache` (keys `name:hash`) or a package descriptor (keys
`name:package:hash`); the TypeScript `get<T>` casts are unchecked, so reads
match on the tag written by this same class. -/

/-- Values held by the resolver's persistent store. -/
abbrev FCVal (E P : Type) := Sum (LibraryCache E P) P

/-- Module-system collaborators of the resolver. `resolvePath` is
`require.resolve` (`none` models a throw), `fileHash` streams and hashes a
file (`none` models a stream error), `loadedExports` is the exports view the
`require` call plus default-export merging produces, `hasDefault` the
`checkDefaultExport` verdict, `loadPackage` the parsed descriptor a
`require` of a package.json produces, `validPackage` the
`isValidPackageInfo` check, `truthy` JavaScript truthiness of an exports
value, and `entrySize` the serialized size of a persisted record. -/
structure ResolverEnv (E P : Type) where
  resolvePath : String → Option String
  fileExists : String → Bool
  fileHash : String → Option String
  loadedExports : String → E
  hasDefault : String → Bool
  loadPackage : String → Option P
  validPackage : P → Bool
  truthy : E → Bool
  entrySize : FCVal E P → Nat

/-- The mutable state of a `RequireLibraryContext`: the in-memory tier, the
persistent tier and the log of module loads performed (most recent first). -/
structure ResolverState (E P : Type) where
  mem : MemCache E P
  fileStore : Store (FCVal E P)
  loads : List String
deriving DecidableEq

/-- The filesystem path of `getPackageInfo`'s try-block after the package
descriptor was resolved and hashed: consult the persistent cache under
`name:package:hash`, else load, validate (a bad shape throws
`VALIDATION_ERROR`), cache and return the descriptor. A `require` failure is
caught and degrades to `none`. -/
def getPackageInfoFs {E P : Type} (env : ResolverEnv E P) (fsEnv : FsEnv)
    (cfg : CacheConfig) (st : ResolverState E P) (name : String) (now : Nat) :
    Except StudylibError (ResolverState E P × Option P) :=
  match env.resolvePath (name ++ "/package.json") with
  | none => Except.ok (st, none)
  | some pkgPath =>
    match env.fileHash pkgPath with
    | none => Except.ok (st, none)
    | some h =>
      let ck := name ++ ":package:" ++ h
      let r := CacheManager.get fsEnv cfg st.fileStore ck now
      let st1 : ResolverState E P := ⟨st.mem, r.1, st.loads⟩
      match r.2 with
      | some (Sum.inr p) => Except.ok (st1, some p)
      | _ =>
        match env.loadPackage pkgPath with
        | none => Except.ok (⟨st1.mem, st1.fileStore, pkgPath :: st1.loads⟩, none)
        | some p =>
          let st2 : ResolverState E P := ⟨st1.mem, st1.fileStore, pkgPath :: st1.loads⟩
          if !env.validPackage p then
            Except.error ⟨"Invalid package.json for \"" ++ name ++ "\"",
              ErrorCode.VALIDATION_ERROR⟩
          else
            let fs2 := CacheManager.set fsEnv cfg env.entrySize st2.fileStore ck
              (Sum.inr p) now
            Except.ok (⟨st2.mem, fs2, st2.loads⟩, some p)

/-- `RequireLibraryContext.getPackageInfo`: validates the name, serves a
memory-cached descriptor when one is present (refreshing `lastAccessed`),
otherwise goes to the filesystem path. A thrown `StudylibError` is
rethrown; any other failure degrades to `none`. -/
def RequireLibraryContext.getPackageInfo {E P : Type} (env : ResolverEnv E P)
    (fsEnv : FsEnv) (cfg : CacheConfig) (st : ResolverState E P) (name : String)
    (now : Nat) : Except StudylibError (ResolverState E P × Option P) :=
  match validateLibraryName name with
  | some e => Except.error e
  | none =>
    let r := getFromMemoryCache now st.mem name
    let st1 : ResolverState E P := ⟨r.2, st.fileStore, st.loads⟩
    match r.1 with
    | some c =>
      match c.packageInfo with
      | some p => Except.ok (st1, some p)
      | none => getPackageInfoFs env fsEnv cfg st1 name now
    | none => getPackageInfoFs env fsEnv cfg st1 name now

/-- `RequireLibraryContext.context`: validates the name; a memory-cache
entry with truthy exports is returned at once. Otherwise the entry point is
resolved, existence-checked and hashed; the persistent tier is consulted
under `name:hash` (a hit is promoted into the memory tier); on a miss the
module is loaded (logged in `loads`), the exports view and default flag are
computed, `getPackageInfo` is consulted, and the fresh entry is written to
both tiers. Non-`StudylibError` failures are wrapped as
`LIBRARY_NOT_FOUND`. -/
def RequireLibraryContext.context {E P : Type} (env : ResolverEnv E P) (fsEnv : FsEnv)
    (cfg : CacheConfig) (st : ResolverState E P) (name : String) (now : Nat) :
    Except StudylibError (ResolverState E P × E) :=
  match validateLibraryName name with
  | some e => Except.error e
  | none =>
    let r0 := getFromMemoryCache now st.mem name
    let st1 : ResolverState E P := ⟨r0.2, st.fileStore, st.loads⟩
    let memHit : Option E :=
      match r0.1 with
      | some c => if env.truthy c.exports then some c.exports else none
      | none => none
    match memHit with
    | some e => Except.ok (st1, e)
    | none =>
      match env.resolvePath name with
      | none =>
        Except.error ⟨"Failed to load library \"" ++ name ++ "\"",
          ErrorCode.LIBRARY_NOT_FOUND⟩
      | some p =>
        if !env.fileExists p then
          Except.error ⟨"Library \"" ++ name ++ "\" not found at path: " ++ p,
            ErrorCode.LIBRARY_NOT_FOUND⟩
        else
          match env.fileHash p with
          | none =>
            Except.error ⟨"Failed to load library \"" ++ name ++ "\"",
              ErrorCode.LIBRARY_NOT_FOUND⟩
          | some h =>
            let ck := name ++ ":" ++ h
            let r := CacheManager.get fsEnv cfg st1.fileStore ck now
            let st2 : ResolverState E P := ⟨st1.mem, r.1, st1.loads⟩
            match r.2 with
            | some (Sum.inl lc) =>
              Except.ok (⟨setInMemoryCache now st2.mem name lc, st2.fileStore,
                st2.loads⟩, lc.exports)
            | _ =>
              let st3 : ResolverState E P := ⟨st2.mem, st2.fileStore, p :: st2.loads⟩
              let hasDef := env.hasDefault p
              let ex := env.loadedExports p
              match RequireLibraryContext.getPackageInfo env fsEnv cfg st3 name now with
              | Except.error e => Except.error e
              | Except.ok (st4, pkg) =>
                let entry : LibraryCache E P := ⟨ex, pkg, now, hasDef, h⟩
                let fs2 := CacheManager.set fsEnv cfg env.entrySize st4.fileStore ck
                  (Sum.inl entry) now
                Except.ok (⟨setInMemoryCache now st4.mem name entry, fs2,
                  st4.loads⟩, ex)

/-- A resolver environment with one library "lib" at path "/p" whose file
hashes to "h1" and loads to exports `1`; no package descriptor resolves. -/
def envA : ResolverEnv Nat Nat :=
  { resolvePath := fun n => if n = "lib" then some "/p" else none
    fileExists := fun p => p == "/p"
    fileHash := fun p => if p = "/p" then some "h1" else none
    loadedExports := fun _ => 1
    hasDefault := fun _ => false
    loadPackage := fun _ => none
    validPackage := fun _ => true
    truthy := fun _ => true
    entrySize := fun _ => 1 }

/-- `envA` after the entry-point file's bytes changed: its hash is now "h2"
and loading it would produce the exports `2`. -/
def envB : ResolverEnv Nat Nat :=
  { envA with
    fileHash := fun p => if p = "/p" then some "h2" else none
    loadedExports := fun _ => 2 }

/-- The resolver's store configuration (7-day TTL, library-cache dir). -/
def cfgLib : CacheConfig := mkCacheManager "/h" (some (libraryCacheOptions "/h"))

/-- An empty resolver state. -/
def st0R : ResolverState Nat Nat := ⟨[], [], []⟩

/-- The exports a `context` result carries, when it succeeded. -/
def ctxExports {E P : Type} (r : Except StudylibError (ResolverState E P × E)) :
    Option E :=
  match r with
  | Except.ok (_, e) => some e
  | Except.error _ => none

/-- The state a `context` result carries, when it succeeded. -/
def ctxState {E P : Type} (r : Except StudylibError (ResolverState E P × E)) :
    Option (ResolverState E P) :=
  match r with
  | Except.ok (s, _) => some s
  | Except.error _ => none

/-- The state after a first successful `context "lib"` call against `envA`. -/
def st1R : ResolverState Nat Nat :=
  (ctxState (RequireLibraryContext.context envA okEnv cfgLib st0R "lib" 0)).getD st0R

/-- Decimal digit character. -/
def digitChar (d : Nat) : Char := Char.ofNat (48 + d)

/-- Accumulator loop producing the decimal digits of a number, most
significant first. -/
def natToStringAux (n : Nat) (acc : List Char) : List Char :=
  if h : n < 10 then digitChar n :: acc
  else natToStringAux (n / 10) (digitChar (n % 10) :: acc)
termination_by n
decreasing_by exact Nat.div_lt_self (by omega) (by omega)

/-- Decimal rendering of a number, the JavaScript template interpolation
`${itemsPerPage}`. -/
def natToString (n : Nat) : String := String.mk (natToStringAux n [])

example : natToString 20 = "20" := by
  simp [natToString, natToStringAux, digitChar]
example : natToString 0 = "0" := by
  simp [natToString, natToStringAux, digitChar]

/-- `AIResponseCache.generateCacheKey`: the four dimensions joined with `:`
and hashed (`crypto.createHash('sha256')`, abstracted as `hash`). -/
def AIResponseCache.generateCacheKey (hash : String → String)
    (libraryName libraryVersion aiTool : String) (itemsPerPage : Nat) : String :=
  hash (libraryName ++ ":" ++ libraryVersion ++ ":" ++ aiTool ++ ":" ++
    natToString itemsPerPage)

/-! ### Concrete instances used by the theorems below -/

/-- Environment in which listing the cache directory fails. -/
def badReaddirEnv : FsEnv :=
  ⟨fun _ => false, fun _ => false, fun _ => false, fun _ => false, true, fun _ => false, true⟩

/-- Decimal value of a digit character. -/
def digitVal (c : Char) : Nat := c.toNat - 48

/-- Decimal value of a digit string. -/
def decVal (l : List Char) : Nat := l.foldl (fun a c => a * 10 + digitVal c) 0

/-- Distinct concrete library names, one per index. -/
def keyName (i : Nat) : String := String.mk (List.replicate i 'k')

/-- A concrete fresh `LibraryCache` entry inserted at time `i`. -/
def libEntry (i : Nat) : LibraryCache Nat Unit :=
  ⟨i, none, i, false, ""⟩

/-- Inserts `n` distinct fresh entries into an empty in-memory cache, the
`i`-th at time `i` (all within the freshness window). -/
def insertMany (n : Nat) : MemCache Nat Unit :=
  (List.range n).foldl (fun m i => setInMemoryCache i m (keyName i) (libEntry i)) []

/-- A directory of 100 files of one byte each. -/
def st100 : Store Nat :=
  (List.range 100).map (fun i => (keyName i, ⟨⟨0, 0⟩, 1, i⟩))

/-- A resolver environment in which nothing resolves. -/
def trivialEnv : ResolverEnv Nat Nat :=
  ⟨fun _ => none, fun _ => false, fun _ => none, fun _ => 0, fun _ => false,
   fun _ => none, fun _ => true, fun _ => true, fun _ => 0⟩

/-! ### Basic store lemmas -/

theorem lookupFile_writeFile_self {V : Type} (st : Store V) (p : String) (file : CacheFile V) :
    lookupFile (writeFile st p file) p = some file := by
  induction st with
  | nil => simp [writeFile, lookupFile, List.find?]
  | cons f rest ih =>
    rcases hq : (f.1 == p) with _ | _
    · have hq2 : ¬f.1 = p := by simpa using hq
      have hstep : writeFile (f :: rest) p file = f :: writeFile rest p file := by
        unfold writeFile
        have hl : lookupFile (f :: rest) p = lookupFile rest p := by
          simp [lookupFile, List.find?, hq]
        rw [hl]
        rcases hr : (lookupFile rest p).isSome with _ | _ <;> simp [hr, hq, hq2]
      rw [hstep]
      simpa [lookupFile, List.find?, hq] using ih
    · have hq2 : f.1 = p := by simpa using hq
      unfold writeFile
      have hs : (lookupFile (f :: rest) p).isSome = true := by
        simp [lookupFile, List.find?, hq]
      rw [if_pos hs]
      simp [lookupFile, List.find?, hq, hq2]

theorem lookupFile_removeFile_self {V : Type} (st : Store V) (p : String) :
    lookupFile (removeFile st p) p = none := by
  induction st with
  | nil => rfl
  | cons f rest ih =>
    rcases hq : (f.1 == p) with _ | _
    · have hq2 : ¬f.1 = p := by simpa using hq
      have hstep : removeFile (f :: rest) p = f :: removeFile rest p := by
        simp [removeFile, List.filter_cons, hq, hq2]
      rw [hstep]
      simpa [lookupFile, List.find?, hq] using ih
    · have hq2 : f.1 = p := by simpa using hq
      have hstep : removeFile (f :: rest) p = removeFile rest p := by
        simp [removeFile, List.filter_cons, hq, hq2]
      rw [hstep]
      exact ih

theorem lookupFile_touchFile_self {V : Type} (st : Store V) (p : String) (now : Nat) :
    lookupFile (touchFile st p now) p =
      (lookupFile st p).map (fun f => ⟨f.entry, f.size, now⟩) := by
  induction st with
  | nil => rfl
  | cons f rest ih =>
    rcases hq : (f.1 == p) with _ | _
    · have hq2 : ¬f.1 = p := by simpa using hq
      simpa [touchFile, lookupFile, List.find?, hq, hq2] using ih
    · have hq2 : f.1 = p := by simpa using hq
      simp [touchFile, lookupFile, List.find?, hq, hq2]

/-! ### C1 — the CacheManager singleton and per-purpose configuration -/

/-- C1: the claim fails on the code and the intended behavior is clear from
the call sites. `CacheManager.getInstance` returns the already-constructed
singleton and ignores the options of every later caller, so when the
library resolver constructs its 7-day store first, the Documentation
Response Cache operates on that same store: TTL 7 days (not 30), maxSize
100MB (not 500MB), directory `library-cache` (not `ai-cache`). -/
theorem C1_secondGetInstanceKeepsFirstConfig :
    (CacheManager.getInstance "/home/u"
        (CacheManager.getInstance "/home/u" none (some (libraryCacheOptions "/home/u"))).2
        (some (aiCacheOptions "/home/u"))).1
      = mkCacheManager "/home/u" (some (libraryCacheOptions "/home/u"))
    ∧ (CacheManager.getInstance "/home/u"
        (CacheManager.getInstance "/home/u" none (some (libraryCacheOptions "/home/u"))).2
        (some (aiCacheOptions "/home/u"))).1.ttl = 7 * 24 * 60 * 60 * 1000
    ∧ (CacheManager.getInstance "/home/u"
        (CacheManager.getInstance "/home/u" none (some (libraryCacheOptions "/home/u"))).2
        (some (aiCacheOptions "/home/u"))).1.maxSize = 100 * 1024 * 1024
    ∧ (CacheManager.getInstance "/home/u"
        (CacheManager.getInstance "/home/u" none (some (libraryCacheOptions "/home/u"))).2
        (some (aiCacheOptions "/home/u"))).1
      ≠ mkCacheManager "/home/u" (some (aiCacheOptions "/home/u")) := by
  refine ⟨rfl, rfl, rfl, ?_⟩
  decide

/-! ### C10 — falsy configuration values fall back to the defaults -/

/-- C10: the `CacheManager` constructor replaces falsy configuration values
with the defaults: `ttl = 0` becomes 24 hours, `maxSize = 0` becomes 100MB,
and an empty `cacheDir` becomes the home-directory default; a configured
zero is never honored as zero. -/
theorem C10_constructorDefaultsFalsyOptions :
    ∀ (home : String) (opts : CacheOptions),
      (opts.ttl = some 0 → (mkCacheManager home (some opts)).ttl = defaultTtl)
      ∧ (opts.maxSize = some 0 → (mkCacheManager home (some opts)).maxSize = defaultMaxSize)
      ∧ (opts.cacheDir = some "" → (mkCacheManager home (some opts)).cacheDir =
          pathJoin (pathJoin home ".studylib") "cache")
      ∧ defaultTtl = 24 * 60 * 60 * 1000
      ∧ defaultMaxSize = 100 * 1024 * 1024 := by
  intro home opts
  refine ⟨fun h => ?_, fun h => ?_, fun h => ?_, rfl, rfl⟩ <;>
    simp [mkCacheManager, natOrDefault, strOrDefault, h]

/-- Witness for C10 at a concrete all-falsy options record. -/
theorem C10_witness :
    (mkCacheManager "/h" (some ⟨some "", some 0, some 0⟩)).ttl = defaultTtl
    ∧ (mkCacheManager "/h" (some ⟨some "", some 0, some 0⟩)).maxSize = defaultMaxSize
    ∧ (mkCacheManager "/h" (some ⟨some "", some 0, some 0⟩)).cacheDir =
        pathJoin (pathJoin "/h" ".studylib") "cache" :=
  ⟨(C10_constructorDefaultsFalsyOptions "/h" ⟨some "", some 0, some 0⟩).1 rfl,
   (C10_constructorDefaultsFalsyOptions "/h" ⟨some "", some 0, some 0⟩).2.1 rfl,
   (C10_constructorDefaultsFalsyOptions "/h" ⟨some "", some 0, some 0⟩).2.2.1 rfl⟩

/-! ### C7 — failure propagation policy of the persistent store -/

theorem clear_snd_eq {V : Type} (env : FsEnv) (st : Store V) :
    (CacheManager.clear env st).2 =
      if env.readdirFails || st.any (fun f => env.unlinkFails f.1) then
        some ⟨"Failed to clear cache", ErrorCode.CONFIG_ERROR⟩
      else none := by
  unfold CacheManager.clear
  rcases hr : env.readdirFails with _ | _ <;>
    rcases ha : st.any (fun f => env.unlinkFails f.1) with _ | _ <;> simp [hr, ha]

/-- C7: `get`, `set` and `delete` never propagate a failure (every injected
filesystem fault degrades to a miss or no-op), while `clear` fails exactly
when the directory cannot be listed or some unlink fails — and then with
code `CONFIG_ERROR` — and a directory-initialization failure also carries
`CONFIG_ERROR`. -/
theorem C7_propagationPolicy :
    ∀ (V : Type) (env : FsEnv) (cfg : CacheConfig) (valueSize : V → Nat)
      (st : Store V) (key : String) (v : V) (now : Nat) (de : Bool),
      CacheManager.getE env cfg st key now
        = Except.ok (CacheManager.get env cfg st key now)
      ∧ CacheManager.setE env cfg valueSize st key v now
        = Except.ok (CacheManager.set env cfg valueSize st key v now)
      ∧ CacheManager.deleteE env cfg st key
        = Except.ok (CacheManager.delete env cfg st key)
      ∧ ((CacheManager.clear env st).2 = none ↔
          env.readdirFails = false ∧ st.any (fun f => env.unlinkFails f.1) = false)
      ∧ (∀ e, (CacheManager.clear env st).2 = some e → e.code = ErrorCode.CONFIG_ERROR)
      ∧ (CacheManager.initializeCache env de = none ↔
          (de = true ∨ env.mkdirFails = false))
      ∧ (∀ e, CacheManager.initializeCache env de = some e →
          e.code = ErrorCode.CONFIG_ERROR) := by
  intro V env cfg valueSize st key v now de
  refine ⟨?_, rfl, rfl, ?_, ?_, ?_, ?_⟩
  · unfold CacheManager.getE CacheManager.get
    cases CacheManager.getAttempt env cfg st key now <;> rfl
  · rw [clear_snd_eq]
    rcases hr : env.readdirFails with _ | _ <;>
      rcases ha : st.any (fun f => env.unlinkFails f.1) with _ | _ <;> simp [hr, ha]
  · intro e he
    rw [clear_snd_eq] at he
    split at he
    · cases he; rfl
    · cases he
  · unfold CacheManager.initializeCache
    rcases de <;> rcases hm : env.mkdirFails with _ | _ <;> simp [hm]
  · intro e he
    unfold CacheManager.initializeCache at he
    split at he
    · cases he; rfl
    · cases he

/-- Witness for C7: at the fault-injecting environment, `clear` reports a
`CONFIG_ERROR` and a failed directory initialization does too. -/
theorem C7_witness :
    (∀ e, (CacheManager.clear badReaddirEnv ([] : Store Nat)).2 = some e →
      e.code = ErrorCode.CONFIG_ERROR)
    ∧ (⟨"Failed to clear cache", ErrorCode.CONFIG_ERROR⟩ : StudylibError).code
        = ErrorCode.CONFIG_ERROR
    ∧ (⟨"Failed to initialize cache directory", ErrorCode.CONFIG_ERROR⟩ :
        StudylibError).code = ErrorCode.CONFIG_ERROR :=
  ⟨(C7_propagationPolicy Nat badReaddirEnv ⟨"/c", 0, 0⟩ (fun _ => 0) [] "k" 0 0 false).2.2.2.2.1,
   (C7_propagationPolicy Nat badReaddirEnv ⟨"/c", 0, 0⟩ (fun _ => 0) [] "k" 0 0
     false).2.2.2.2.1 _ rfl,
   (C7_propagationPolicy Nat badReaddirEnv ⟨"/c", 0, 0⟩ (fun _ => 0) [] "k" 0 0
     false).2.2.2.2.2.2 _ rfl⟩

/-! ### C9 — determinism and per-dimension injectivity of generateCacheKey -/

theorem natToStringAux_eq_append (n : Nat) (acc : List Char) :
    natToStringAux n acc = natToStringAux n [] ++ acc := by
  induction n using Nat.strong_induction_on generalizing acc with
  | _ n ih =>
    have e1 : natToStringAux n acc =
        if _ : n < 10 then digitChar n :: acc
        else natToStringAux (n / 10) (digitChar (n % 10) :: acc) := by
      rw [natToStringAux]
    have e2 : natToStringAux n [] =
        if _ : n < 10 then digitChar n :: []
        else natToStringAux (n / 10) (digitChar (n % 10) :: []) := by
      rw [natToStringAux]
    rw [e1, e2]
    by_cases h : n < 10
    · simp [h]
    · simp only [h, dif_neg, not_false_iff]
      have hlt : n / 10 < n := Nat.div_lt_self (by omega) (by omega)
      rw [ih (n / 10) hlt (digitChar (n % 10) :: acc),
        ih (n / 10) hlt (digitChar (n % 10) :: [])]
      simp

theorem decVal_append_singleton (l : List Char) (c : Char) :
    decVal (l ++ [c]) = decVal l * 10 + digitVal c := by
  simp [decVal, List.foldl_append]

theorem digitVal_digitChar (d : Nat) (h : d < 10) : digitVal (digitChar d) = d := by
  interval_cases d <;> decide

theorem decVal_natToStringAux (n : Nat) : decVal (natToStringAux n []) = n := by
  induction n using Nat.strong_induction_on with
  | _ n ih =>
    by_cases h : n < 10
    · rw [natToStringAux]
      simp [h, decVal, digitVal_digitChar n h]
    · rw [natToStringAux]
      simp only [h, dif_neg, not_false_iff]
      have hlt : n / 10 < n := Nat.div_lt_self (by omega) (by omega)
      rw [natToStringAux_eq_append, decVal_append_singleton, ih (n / 10) hlt,
        digitVal_digitChar (n % 10) (Nat.mod_lt n (by omega))]
      omega

theorem natToString_injective : Function.Injective natToString := by
  intro m n h
  have hd : natToStringAux m [] = natToStringAux n [] := congrArg String.data h
  have := congrArg decVal hd
  rwa [decVal_natToStringAux, decVal_natToStringAux] at this

/-- C9: `generateCacheKey` is a pure function — equal inputs give the equal
key — and, the hash being injective on the inputs used (spec:
collision-resistant), changing any single one of the four dimensions
changes the key, because the `:`-joined pre-hash data string is injective
in each coordinate separately. -/
theorem C9_generateCacheKeyFourDimensions :
    ∀ (hash : String → String), Function.Injective hash →
    ∀ (a a2 b b2 c c2 : String) (d d2 : Nat),
      (a = a2 → b = b2 → c = c2 → d = d2 →
        AIResponseCache.generateCacheKey hash a b c d
          = AIResponseCache.generateCacheKey hash a2 b2 c2 d2)
      ∧ (a ≠ a2 → AIResponseCache.generateCacheKey hash a b c d
          ≠ AIResponseCache.generateCacheKey hash a2 b c d)
      ∧ (b ≠ b2 → AIResponseCache.generateCacheKey hash a b c d
          ≠ AIResponseCache.generateCacheKey hash a b2 c d)
      ∧ (c ≠ c2 → AIResponseCache.generateCacheKey hash a b c d
          ≠ AIResponseCache.generateCacheKey hash a b c2 d)
      ∧ (d ≠ d2 → AIResponseCache.generateCacheKey hash a b c d
          ≠ AIResponseCache.generateCacheKey hash a b c d2) := by
  intro hash hinj a a2 b b2 c c2 d d2
  refine ⟨fun h1 h2 h3 h4 => by rw [h1, h2, h3, h4], fun hne he => hne ?_,
    fun hne he => hne ?_, fun hne he => hne ?_, fun hne he => hne ?_⟩
  · have hdata := congrArg String.data (hinj he)
    simp only [String.data_append, List.append_assoc] at hdata
    exact String.ext (List.append_cancel_right hdata)
  · have hdata := congrArg String.data (hinj he)
    simp only [String.data_append, List.append_assoc] at hdata
    have h1 := List.append_cancel_left hdata
    have h2 := List.append_cancel_left h1
    exact String.ext (List.append_cancel_right h2)
  · have hdata := congrArg String.data (hinj he)
    simp only [String.data_append, List.append_assoc] at hdata
    have h1 := List.append_cancel_left hdata
    have h2 := List.append_cancel_left h1
    have h3 := List.append_cancel_left h2
    have h4 := List.append_cancel_left h3
    exact String.ext (List.append_cancel_right h4)
  · have hdata := congrArg String.data (hinj he)
    simp only [String.data_append, List.append_assoc] at hdata
    have h1 := List.append_cancel_left hdata
    have h2 := List.append_cancel_left h1
    have h3 := List.append_cancel_left h2
    have h4 := List.append_cancel_left h3
    have h5 := List.append_cancel_left h4
    have h6 := List.append_cancel_left h5
    exact natToString_injective (String.ext h6)

/-- Witness for C9 at the identity hash and concrete inputs. -/
theorem C9_witness :
    AIResponseCache.generateCacheKey (fun s => s) "react" "18" "openai" 10
      ≠ AIResponseCache.generateCacheKey (fun s => s) "react" "18" "openai" 20 :=
  (C9_generateCacheKeyFourDimensions (fun s => s) (fun _ _ h => h)
    "react" "react" "18" "18" "openai" "openai" 10 20).2.2.2.2 (by decide)

/-! ### C2 — the TTL invariant -/

theorem get_okEnv_spec {V : Type} (cfg : CacheConfig) (st : Store V) (key : String)
    (now : Nat) (file : CacheFile V)
    (h : lookupFile st (getCacheFilePath cfg.cacheDir key) = some file) :
    CacheManager.get okEnv cfg st key now =
      if now - file.entry.timestamp > cfg.ttl then
        (removeFile (touchFile st (getCacheFilePath cfg.cacheDir key) now)
          (getCacheFilePath cfg.cacheDir key), none)
      else (touchFile st (getCacheFilePath cfg.cacheDir key) now,
        some file.entry.value) := by
  unfold CacheManager.get CacheManager.getAttempt
  simp only [okEnv, h]
  by_cases hexp : now - file.entry.timestamp > cfg.ttl
  · simp only [hexp, if_pos]
    unfold CacheManager.delete
    have ht := lookupFile_touchFile_self st (getCacheFilePath cfg.cacheDir key) now
    rw [h] at ht
    simp [ht, hexp]
  · simp [hexp]

theorem set_okEnv_eq {V : Type} (cfg : CacheConfig) (valueSize : V → Nat) (st : Store V)
    (key : String) (v : V) (now : Nat) :
    CacheManager.set okEnv cfg valueSize st key v now =
      writeFile (CacheManager.ensureCacheSpace okEnv cfg st)
        (getCacheFilePath cfg.cacheDir key) ⟨⟨now, v⟩, valueSize v, now⟩ := by
  simp [CacheManager.set, okEnv]

/-- C2 amended: for the *effective* TTL, `get` immediately after `set`
returns the value, and once more than the TTL has elapsed `get` returns
absent and removes the backing file; but a TTL *configured* as 0 is falsy
and is replaced by the 24-hour default in the constructor, so with
configured TTL 0 a set followed immediately by a get returns the value —
the claimed zero-grace expiry does not occur. -/
theorem C2_ttlInvariantEffective :
    ∀ (V : Type) (cfg : CacheConfig) (valueSize : V → Nat) (st : Store V)
      (key : String) (v : V) (now now2 : Nat),
      (CacheManager.get okEnv cfg
        (CacheManager.set okEnv cfg valueSize st key v now) key now).2 = some v
      ∧ (now2 - now > cfg.ttl →
          (CacheManager.get okEnv cfg
            (CacheManager.set okEnv cfg valueSize st key v now) key now2).2 = none
          ∧ lookupFile
              (CacheManager.get okEnv cfg
                (CacheManager.set okEnv cfg valueSize st key v now) key now2).1
              (getCacheFilePath cfg.cacheDir key) = none)
      ∧ (∀ (home : String) (opts : CacheOptions),
          opts.ttl = some 0 → (mkCacheManager home (some opts)).ttl = defaultTtl) := by
  intro V cfg valueSize st key v now now2
  have hlook : lookupFile (CacheManager.set okEnv cfg valueSize st key v now)
      (getCacheFilePath cfg.cacheDir key) = some ⟨⟨now, v⟩, valueSize v, now⟩ := by
    rw [set_okEnv_eq]
    exact lookupFile_writeFile_self _ _ _
  refine ⟨?_, fun hexp => ?_, fun home opts h => ?_⟩
  · rw [get_okEnv_spec cfg _ key now _ hlook]
    simp
  · rw [get_okEnv_spec cfg _ key now2 _ hlook]
    refine ⟨by simp [hexp], ?_⟩
    simp only [hexp, if_pos]
    exact lookupFile_removeFile_self _ _
  · simp [mkCacheManager, natOrDefault, h]

/-- Witness for C2 at a concrete store, with expiry strictly after the TTL. -/
theorem C2_witness :
    (CacheManager.get okEnv ⟨"/c", 100, 1000⟩
      (CacheManager.set okEnv ⟨"/c", 100, 1000⟩ (fun _ => 1) ([] : Store Nat)
        "foo" 42 0) "foo" 0).2 = some 42
    ∧ (CacheManager.get okEnv ⟨"/c", 100, 1000⟩
        (CacheManager.set okEnv ⟨"/c", 100, 1000⟩ (fun _ => 1) ([] : Store Nat)
          "foo" 42 0) "foo" 101).2 = none :=
  ⟨(C2_ttlInvariantEffective Nat ⟨"/c", 100, 1000⟩ (fun _ => 1) [] "foo" 42 0 101).1,
   ((C2_ttlInvariantEffective Nat ⟨"/c", 100, 1000⟩ (fun _ => 1) [] "foo" 42 0 101).2.1
     (by decide)).1⟩

/-- C2 counterexample: with TTL configured as 0 the effective TTL is the
24-hour default, so a `set` followed immediately by a `get` returns the
value — not absent as the claimed zero-grace behavior would require. -/
theorem C2_counterexample :
    (mkCacheManager "/h" (some ⟨some "/c", some 0, some 1000⟩)).ttl = 86400000
    ∧ (CacheManager.get okEnv (mkCacheManager "/h" (some ⟨some "/c", some 0, some 1000⟩))
        (CacheManager.set okEnv (mkCacheManager "/h" (some ⟨some "/c", some 0, some 1000⟩))
          (fun _ => 1) ([] : Store Nat) "foo" 42 0) "foo" 0).2 = some 42 := by
  decide

/-! ### C6 — capacity behavior of the in-memory tier -/

set_option maxRecDepth 100000 in
/-- C6 counterexample: after inserting 51 distinct fresh entries
(capacity 50, none expired) the cache holds all 51 entries — including the
least-recently-accessed one — not exactly the 50 most-recently-accessed
ones: the cleanup pass runs before the insertion and only evicts when the
size already exceeds 50. -/
theorem C6_counterexample :
    (insertMany 51).length = 51
    ∧ (lookupMem (insertMany 51) (keyName 0)).isSome = true := by
  decide

set_option maxRecDepth 100000 in
/-- C6 amended: inserting 51 distinct fresh entries leaves all 51 present;
the capacity bound is enforced one write late, so a 52nd distinct insertion
first evicts the least-recently-accessed entry and leaves exactly the 51
most-recently-accessed ones. -/
theorem C6_capacityEnforcedOneWriteLate :
    (insertMany 51).length = 51
    ∧ ((List.range 51).all fun i => (lookupMem (insertMany 51) (keyName i)).isSome) = true
    ∧ (insertMany 52).length = 51
    ∧ lookupMem (insertMany 52) (keyName 0) = none
    ∧ (((List.range 51).map fun i => i + 1).all
        fun i => (lookupMem (insertMany 52) (keyName i)).isSome) = true := by
  decide

/-! ### C5 — the size bound and eviction order -/

theorem insertBy_perm {α : Type} (le : α → α → Bool) (a : α) (l : List α) :
    insertBy le a l ~ a :: l := by
  induction l with
  | nil => exact List.Perm.refl _
  | cons b l ih =>
    unfold insertBy
    split
    · exact (ih.cons b).trans (List.Perm.swap a b l)
    · exact List.Perm.refl _

theorem foldl_insertBy_perm {α : Type} (le : α → α → Bool) (l : List α) :
    ∀ acc : List α, (l.foldl (fun acc a => insertBy le a acc) acc) ~ acc ++ l := by
  induction l with
  | nil => intro acc; simp
  | cons a l ih =>
    intro acc
    simp only [List.foldl_cons]
    refine (ih (insertBy le a acc)).trans ?_
    refine ((insertBy_perm le a acc).append_right l).trans ?_
    exact List.perm_middle.symm

theorem sortBy_perm {α : Type} (le : α → α → Bool) (l : List α) : sortBy le l ~ l := by
  simpa using foldl_insertBy_perm le l []

theorem pairwise_insertBy {α : Type} (le : α → α → Bool)
    (htot : ∀ a b, le a b = true ∨ le b a = true)
    (htrans : ∀ a b c, le a b = true → le b c = true → le a c = true)
    (a : α) (l : List α) (h : l.Pairwise fun x y => le x y = true) :
    (insertBy le a l).Pairwise fun x y => le x y = true := by
  induction l with
  | nil => simp [insertBy]
  | cons b l ih =>
    rw [List.pairwise_cons] at h
    unfold insertBy
    by_cases hba : le b a = true
    · rw [if_pos hba, List.pairwise_cons]
      refine ⟨?_, ih h.2⟩
      intro x hx
      rcases List.mem_cons.mp ((insertBy_perm le a l).mem_iff.mp hx) with rfl | hxl
      · exact hba
      · exact h.1 x hxl
    · rw [if_neg hba, List.pairwise_cons]
      refine ⟨?_, List.pairwise_cons.mpr h⟩
      intro x hx
      rcases List.mem_cons.mp hx with rfl | hxl
      · rcases htot a x with h1 | h1
        · exact h1
        · exact absurd h1 hba
      · have hab : le a b = true := by
          rcases htot a b with h1 | h1
          · exact h1
          · exact absurd h1 hba
        exact htrans a b x hab (h.1 x hxl)

theorem pairwise_sortBy {α : Type} (le : α → α → Bool)
    (htot : ∀ a b, le a b = true ∨ le b a = true)
    (htrans : ∀ a b c, le a b = true → le b c = true → le a c = true)
    (l : List α) : (sortBy le l).Pairwise fun x y => le x y = true := by
  suffices h : ∀ acc : List α, (acc.Pairwise fun x y => le x y = true) →
      ((l.foldl (fun acc a => insertBy le a acc) acc).Pairwise fun x y => le x y = true) by
    exact h [] List.Pairwise.nil
  induction l with
  | nil => intro acc hacc; simpa using hacc
  | cons a l ih =>
    intro acc hacc
    simp only [List.foldl_cons]
    exact ih _ (pairwise_insertBy le htot htrans a acc hacc)

theorem sortByAtime_sorted {V : Type} (st : Store V) :
    (sortByAtime st).Pairwise fun a b => a.2.atime ≤ b.2.atime := by
  have h := pairwise_sortBy (fun a b : String × CacheFile V => decide (a.2.atime ≤ b.2.atime))
    (fun a b => by
      rcases Nat.le_total a.2.atime b.2.atime with h | h
      · left; simpa using h
      · right; simpa using h)
    (fun a b c h1 h2 => by
      simp only [decide_eq_true_eq] at h1 h2 ⊢
      omega) st
  exact h.imp (fun hab => by simpa using hab)

theorem totalSize_perm {V : Type} {st1 st2 : Store V} (h : st1 ~ st2) :
    totalSize st1 = totalSize st2 := by
  unfold totalSize
  exact (h.map (fun f => f.2.size)).sum_eq

theorem keysNodup_of_perm {V : Type} {st1 st2 : Store V} (h : st1 ~ st2)
    (h2 : keysNodup st2) : keysNodup st1 :=
  ((h.map Prod.fst).nodup_iff).mpr h2

theorem keysNodup_removeFile {V : Type} {st : Store V} (h : keysNodup st) (p : String) :
    keysNodup (removeFile st p) :=
  List.Nodup.sublist (List.Sublist.map Prod.fst (List.filter_sublist st)) h

theorem removeFile_perm_of_head {V : Type} {st : Store V} {p : String} {f : CacheFile V}
    {rest : List (String × CacheFile V)}
    (hnd : keysNodup st) (hperm : st ~ (p, f) :: rest) :
    removeFile st p ~ rest := by
  have h1 : st.filter (fun e => e.1 != p) ~ ((p, f) :: rest).filter (fun e => e.1 != p) :=
    hperm.filter _
  have hkeys : (st.map Prod.fst) ~ (((p, f) :: rest).map Prod.fst) := hperm.map _
  have hnd2 : (((p, f) :: rest).map Prod.fst).Nodup := (hkeys.nodup_iff).mp hnd
  have hpnotin : p ∉ rest.map Prod.fst := by
    have h3 : (p :: rest.map Prod.fst).Nodup := by simpa using hnd2
    exact (List.nodup_cons.mp h3).1
  have hfilter_rest : rest.filter (fun e => e.1 != p) = rest := by
    apply List.filter_eq_self.mpr
    intro e he
    have hne : e.1 ≠ p := fun hh => hpnotin (hh ▸ List.mem_map_of_mem Prod.fst he)
    simpa using hne
  have h2 : ((p, f) :: rest).filter (fun e => e.1 != p) = rest := by
    rw [List.filter_cons]
    simp [hfilter_rest]
  calc removeFile st p ~ ((p, f) :: rest).filter (fun e => e.1 != p) := h1
    _ = rest := h2

theorem totalSize_eq_of_perm_cons {V : Type} {st : Store V} {p : String} {f : CacheFile V}
    {rest : List (String × CacheFile V)} (hperm : st ~ (p, f) :: rest) :
    totalSize st = f.size + totalSize rest := by
  rw [totalSize_perm hperm]
  simp [totalSize]

theorem evictLoop_spec {V : Type} (maxSize : Nat) :
    ∀ (sorted : List (String × CacheFile V)) (st : Store V) (size : Nat),
      keysNodup st → st ~ sorted → size = totalSize st →
      totalSize (evictLoop okEnv maxSize sorted size st) ≤ maxSize
      ∧ ∃ n, evictLoop okEnv maxSize sorted size st ~ sorted.drop n := by
  intro sorted
  induction sorted with
  | nil =>
    intro st size hnd hperm hsize
    have hst : st = [] := hperm.eq_nil
    subst hst
    exact ⟨by simp [evictLoop, totalSize], 0, by simp [evictLoop]⟩
  | cons hd rest ih =>
    intro st size hnd hperm hsize
    obtain ⟨p, f⟩ := hd
    unfold evictLoop
    by_cases hle : size ≤ maxSize
    · rw [if_pos hle]
      exact ⟨hsize ▸ hle, 0, by simpa using hperm⟩
    · rw [if_neg hle]
      simp only [okEnv, Bool.false_eq_true, if_false]
      have hrm : removeFile st p ~ rest := removeFile_perm_of_head hnd hperm
      have hnd2 : keysNodup (removeFile st p) := keysNodup_removeFile hnd p
      have htot : totalSize st = f.size + totalSize rest := totalSize_eq_of_perm_cons hperm
      have hsize2 : size - f.size = totalSize (removeFile st p) := by
        rw [totalSize_perm hrm]
        omega
      obtain ⟨hbound, n, hpn⟩ := ih (removeFile st p) (size - f.size) hnd2 hrm hsize2
      exact ⟨hbound, n + 1, by simpa using hpn⟩

theorem ensureCacheSpace_total_le {V : Type} (cfg : CacheConfig) (st : Store V)
    (hnd : keysNodup st) :
    totalSize (CacheManager.ensureCacheSpace okEnv cfg st) ≤ cfg.maxSize := by
  unfold CacheManager.ensureCacheSpace CacheManager.getCacheSize
  simp only [okEnv, List.any_eq_true, Bool.false_eq_true, if_false,
    exists_false, and_false, if_neg, not_false_iff]
  by_cases h : totalSize st > cfg.maxSize
  · rw [if_pos h]
    exact (evictLoop_spec cfg.maxSize (sortByAtime st) st (totalSize st) hnd
      (sortBy_perm _ st).symm rfl).1
  · rw [if_neg h]
    omega

theorem ensureCacheSpace_suffix {V : Type} (cfg : CacheConfig) (st : Store V)
    (hnd : keysNodup st) :
    ∃ n, CacheManager.ensureCacheSpace okEnv cfg st ~ (sortByAtime st).drop n := by
  unfold CacheManager.ensureCacheSpace CacheManager.getCacheSize
  simp only [okEnv, List.any_eq_true, Bool.false_eq_true, if_false,
    exists_false, and_false, if_neg, not_false_iff]
  by_cases h : totalSize st > cfg.maxSize
  · rw [if_pos h]
    exact (evictLoop_spec cfg.maxSize (sortByAtime st) st (totalSize st) hnd
      (sortBy_perm _ st).symm rfl).2
  · rw [if_neg h]
    exact ⟨0, by simpa using (sortBy_perm _ st).symm⟩

theorem totalSize_mapReplace_le {V : Type} (st : Store V) (p : String) (file : CacheFile V)
    (hnd : keysNodup st) :
    totalSize (st.map (fun f => if f.1 == p then (p, file) else f))
      ≤ totalSize st + file.size := by
  induction st with
  | nil => simp [totalSize]
  | cons e rest ih =>
    have hnd2 : keysNodup rest := (List.nodup_cons.mp (by simpa [keysNodup] using hnd)).2
    rcases he : (e.1 == p) with _ | _
    · have := ih hnd2
      simp only [List.map_cons, he, Bool.false_eq_true, if_false]
      simp only [totalSize, List.map_cons, List.sum_cons] at this ⊢
      omega
    · have hep : e.1 = p := by simpa using he
      have hnotin : p ∉ rest.map Prod.fst :=
        hep ▸ (List.nodup_cons.mp (by simpa [keysNodup] using hnd)).1
      have hrest : rest.map (fun f => if f.1 == p then (p, file) else f) = rest := by
        conv_rhs => rw [← List.map_id rest]
        apply List.map_congr_left
        intro x hx
        have : x.1 ≠ p := fun hh => hnotin (hh ▸ List.mem_map_of_mem Prod.fst hx)
        simp [this]
      simp only [List.map_cons, he, if_pos, hrest]
      simp only [totalSize, List.map_cons, List.sum_cons]
      omega

theorem totalSize_writeFile_le {V : Type} (st : Store V) (p : String) (file : CacheFile V)
    (hnd : keysNodup st) :
    totalSize (writeFile st p file) ≤ totalSize st + file.size := by
  unfold writeFile
  split
  · exact totalSize_mapReplace_le st p file hnd
  · simp [totalSize, List.map_append, List.sum_append]

theorem keysNodup_sortByAtime_drop {V : Type} (st : Store V) (hnd : keysNodup st)
    (n : Nat) : keysNodup ((sortByAtime st).drop n) := by
  have hsorted : keysNodup (sortByAtime st) := keysNodup_of_perm (sortBy_perm _ st) hnd
  exact List.Nodup.sublist (List.Sublist.map Prod.fst (List.drop_sublist n _)) hsorted

/-- C5 amended: eviction runs before the write, brings the pre-existing
directory at or under `maxSize`, and removes least-recently-accessed files
first — the survivors are a suffix of the ascending-atime ordering.
Consequently a completed `set` bounds the directory at `maxSize` plus the
size of the entry it just wrote; the claimed bound of `maxSize` itself does
not hold (see the counterexample). -/
theorem C5_sizeBoundWithinNewEntry :
    ∀ (V : Type) (cfg : CacheConfig) (valueSize : V → Nat) (st : Store V)
      (key : String) (v : V) (now : Nat), keysNodup st →
      totalSize (CacheManager.set okEnv cfg valueSize st key v now)
        ≤ cfg.maxSize + valueSize v
      ∧ totalSize (CacheManager.ensureCacheSpace okEnv cfg st) ≤ cfg.maxSize
      ∧ (∃ n, CacheManager.ensureCacheSpace okEnv cfg st ~ (sortByAtime st).drop n)
      ∧ (sortByAtime st).Pairwise (fun a b => a.2.atime ≤ b.2.atime) := by
  intro V cfg valueSize st key v now hnd
  obtain ⟨n, hn⟩ := ensureCacheSpace_suffix cfg st hnd
  have hnd1 : keysNodup (CacheManager.ensureCacheSpace okEnv cfg st) :=
    keysNodup_of_perm hn (keysNodup_sortByAtime_drop st hnd n)
  refine ⟨?_, ensureCacheSpace_total_le cfg st hnd, ⟨n, hn⟩, sortByAtime_sorted st⟩
  rw [set_okEnv_eq]
  calc totalSize (writeFile (CacheManager.ensureCacheSpace okEnv cfg st)
        (getCacheFilePath cfg.cacheDir key) ⟨⟨now, v⟩, valueSize v, now⟩)
      ≤ totalSize (CacheManager.ensureCacheSpace okEnv cfg st) + valueSize v :=
        totalSize_writeFile_le _ _ _ hnd1
    _ ≤ cfg.maxSize + valueSize v :=
        Nat.add_le_add_right (ensureCacheSpace_total_le cfg st hnd) _

set_option maxRecDepth 100000 in
/-- C5 counterexample: with `maxSize = 100` and 100 one-byte files (each far
smaller than `maxSize`), a `set` of a one-byte entry triggers no eviction
(100 is not strictly above the limit) and leaves the directory at 101
bytes, exceeding `maxSize`. -/
theorem C5_counterexample :
    (st100.all fun f => decide (f.2.size = 1)) = true
    ∧ totalSize st100 = 100
    ∧ totalSize (CacheManager.set okEnv ⟨"/c", 1000, 100⟩ (fun _ => 1) st100 "k" 0 200)
        = 101 := by
  decide

/-- Witness for C5 at a concrete store needing eviction. -/
theorem C5_witness :
    totalSize (CacheManager.set okEnv ⟨"/c", 10, 3⟩ (fun _ => 2)
      [("a", ⟨⟨0, (0 : Nat)⟩, 5, 0⟩)] "k" 0 9) ≤ 3 + 2 :=
  (C5_sizeBoundWithinNewEntry Nat ⟨"/c", 10, 3⟩ (fun _ => 2)
    [("a", ⟨⟨0, 0⟩, 5, 0⟩)] "k" 0 9 (by unfold keysNodup; decide)).1

/-! ### C8 — validation rejects empty, traversal and absolute names -/

theorem startsList_complete {pat l : List Char} (h : pat <+: l) :
    startsList pat l = true := by
  induction pat generalizing l with
  | nil => rfl
  | cons a ps ih =>
    obtain ⟨t, ht⟩ := h
    cases l with
    | nil => simp at ht
    | cons b ls =>
      rw [List.cons_append] at ht
      cases ht
      simp only [startsList, beq_self_eq_true, Bool.true_and]
      exact ih ⟨t, rfl⟩

theorem containsSub_complete {pat l : List Char} (h : pat <:+: l) :
    containsSub pat l = true := by
  obtain ⟨s, t, hst⟩ := h
  subst hst
  induction s with
  | nil =>
    simp only [List.nil_append]
    cases pat with
    | nil =>
      cases t with
      | nil => rfl
      | cons c rest => simp [containsSub, startsList]
    | cons p ps =>
      simp only [List.cons_append, containsSub, Bool.or_eq_true]
      exact Or.inl (startsList_complete ⟨t, rfl⟩)
  | cons c s ih =>
    simp only [List.cons_append, containsSub, Bool.or_eq_true]
    exact Or.inr ih

theorem splitChar_spec (sep : Char) (l : List Char) :
    ∃ s0 ss, splitChar sep l = s0 :: ss ∧ s0 <+: l ∧ ∀ s ∈ ss, s <:+: l := by
  induction l with
  | nil => exact ⟨[], [], rfl, List.nil_prefix, by simp⟩
  | cons c rest ih =>
    obtain ⟨s0, ss, heq, hpre, hmem⟩ := ih
    by_cases hc : c = sep
    · refine ⟨[], s0 :: ss, by simp [splitChar, hc, heq], List.nil_prefix, ?_⟩
      intro s hs
      rcases List.mem_cons.mp hs with rfl | hsl
      · exact List.infix_cons hpre.isInfix
      · exact List.infix_cons (hmem s hsl)
    · refine ⟨c :: s0, ss, by simp [splitChar, hc, heq], ?_, ?_⟩
      · obtain ⟨t, ht⟩ := hpre
        exact ⟨t, by rw [List.cons_append, ht]⟩
      · intro s hs
        exact List.infix_cons (hmem s hs)

theorem mem_splitChar_sub {sep : Char} {s : List Char} {l : List Char}
    (h : s ∈ splitChar sep l) : s <:+: l := by
  obtain ⟨s0, ss, heq, hpre, hmem⟩ := splitChar_spec sep l
  rw [heq] at h
  rcases List.mem_cons.mp h with rfl | hsl
  · exact hpre.isInfix
  · exact hmem s hsl

theorem validate_rejects (name : String)
    (h : name = "" ∨ ['.', '.'] ∈ splitChar '/' (pathNormalize name).toList
      ∨ (pathNormalize name).toList.head? = some '/') :
    ∃ e, validateLibraryName name = some e ∧ e.code = ErrorCode.VALIDATION_ERROR := by
  by_cases hn : name = ""
  · refine ⟨⟨"Library name must be a non-empty string", ErrorCode.VALIDATION_ERROR⟩, ?_, rfl⟩
    simp [validateLibraryName, hn]
  · rcases h with h | h | h
    · exact absurd h hn
    · refine ⟨⟨"Invalid library name: must not contain path traversal or absolute paths",
        ErrorCode.VALIDATION_ERROR⟩, ?_, rfl⟩
      unfold validateLibraryName
      rw [if_neg hn,
        if_pos (Or.inl (containsSub_complete (mem_splitChar_sub h)))]
    · refine ⟨⟨"Invalid library name: must not contain path traversal or absolute paths",
        ErrorCode.VALIDATION_ERROR⟩, ?_, rfl⟩
      unfold validateLibraryName
      rw [if_neg hn, if_pos (Or.inr h)]

/-- C8: a name that is empty, or whose `path.normalize`d form contains a
`..` traversal segment or is absolute, is rejected by both `context` and
`getPackageInfo` with a `VALIDATION_ERROR`, for every module-system and
filesystem environment and every cache state — i.e. before any filesystem
resolution is attempted. -/
theorem C8_validationRejectsTraversal :
    ∀ (E P : Type) (env : ResolverEnv E P) (fsEnv : FsEnv) (cfg : CacheConfig)
      (st : ResolverState E P) (name : String) (now : Nat),
      (name = "" ∨ ['.', '.'] ∈ splitChar '/' (pathNormalize name).toList
        ∨ (pathNormalize name).toList.head? = some '/') →
      (∃ e, RequireLibraryContext.context env fsEnv cfg st name now = Except.error e
        ∧ e.code = ErrorCode.VALIDATION_ERROR)
      ∧ (∃ e, RequireLibraryContext.getPackageInfo env fsEnv cfg st name now
          = Except.error e ∧ e.code = ErrorCode.VALIDATION_ERROR) := by
  intro E P env fsEnv cfg st name now h
  obtain ⟨e, he, hcode⟩ := validate_rejects name h
  constructor
  · refine ⟨e, ?_, hcode⟩
    unfold RequireLibraryContext.context
    rw [he]
  · refine ⟨e, ?_, hcode⟩
    unfold RequireLibraryContext.getPackageInfo
    rw [he]

/-- Witness for C8: resolving the library named "../etc" fails with a
`VALIDATION_ERROR` whatever the filesystem contains. -/
theorem C8_witness :
    (∃ e, RequireLibraryContext.context trivialEnv okEnv ⟨"/c", 0, 0⟩ ⟨[], [], []⟩
        "../etc" 0 = Except.error e ∧ e.code = ErrorCode.VALIDATION_ERROR)
    ∧ (∃ e, RequireLibraryContext.getPackageInfo trivialEnv okEnv ⟨"/c", 0, 0⟩ ⟨[], [], []⟩
        "../etc" 0 = Except.error e ∧ e.code = ErrorCode.VALIDATION_ERROR) :=
  C8_validationRejectsTraversal Nat Nat trivialEnv okEnv ⟨"/c", 0, 0⟩ ⟨[], [], []⟩
    "../etc" 0 (Or.inr (Or.inl (by decide)))

/-! ### C4 — the cache file name encoding -/

theorem b64CharInv_b64Char : ∀ i, i < 64 → b64CharInv (b64Char i) = i := by decide

theorem b64Char_safe : ∀ i, i < 62 →
    b64Char i ≠ '+' ∧ b64Char i ≠ '/' ∧ b64Char i ≠ '_' ∧ b64Char i ≠ '=' := by decide

theorem b64Char_ne_padChar : ∀ i, i < 64 → b64Char i ≠ '=' := by decide

theorem b64Decode_b64Chunks : ∀ (bs : List Nat), (∀ x ∈ bs, x < 256) →
    b64Decode (b64Chunks bs) = bs
  | [], _ => rfl
  | [a], h => by
    have ha : a < 256 := h a (by simp)
    show b64Decode [b64Char (a / 4), b64Char (a % 4 * 16), '=', '='] = [a]
    unfold b64Decode
    rw [if_pos rfl, b64CharInv_b64Char _ (by omega), b64CharInv_b64Char _ (by omega)]
    simp only [List.cons.injEq, and_true]
    omega
  | [a, b], h => by
    have ha : a < 256 := h a (by simp)
    have hb : b < 256 := h b (by simp)
    show b64Decode [b64Char (a / 4), b64Char (a % 4 * 16 + b / 16),
      b64Char (b % 16 * 4), '='] = [a, b]
    unfold b64Decode
    rw [if_neg (b64Char_ne_padChar _ (by omega)), if_pos rfl,
      b64CharInv_b64Char _ (by omega), b64CharInv_b64Char _ (by omega),
      b64CharInv_b64Char _ (by omega)]
    simp only [List.cons.injEq, and_true]
    omega
  | a :: b :: c :: rest, h => by
    have ha : a < 256 := h a (by simp)
    have hb : b < 256 := h b (by simp)
    have hc : c < 256 := h c (by simp)
    have ih := b64Decode_b64Chunks rest (fun x hx => h x (by simp [hx]))
    show b64Decode (b64Char (a / 4) :: b64Char (a % 4 * 16 + b / 16) ::
      b64Char (b % 16 * 4 + c / 64) :: b64Char (c % 64) :: b64Chunks rest)
      = a :: b :: c :: rest
    unfold b64Decode
    rw [if_neg (b64Char_ne_padChar _ (by omega)),
      if_neg (b64Char_ne_padChar _ (by omega)),
      b64CharInv_b64Char _ (by omega), b64CharInv_b64Char _ (by omega),
      b64CharInv_b64Char _ (by omega), b64CharInv_b64Char _ (by omega), ih]
    simp only [List.cons.injEq, and_true]
    refine ⟨by omega, by omega, by omega⟩

theorem utf8Char_ascii (c : Char) (h : c.toNat < 128) : utf8Char c = [c.toNat] := by
  unfold utf8Char
  rw [if_pos h]

theorem utf8List_ascii : ∀ (l : List Char), (∀ c ∈ l, c.toNat < 128) →
    (l.map utf8Char).flatten = l.map Char.toNat
  | [], _ => rfl
  | c :: rest, h => by
    simp only [List.map_cons, List.flatten_cons]
    rw [utf8Char_ascii c (h c (by simp)),
      utf8List_ascii rest (fun x hx => h x (by simp [hx]))]
    rfl

theorem utf8Encode_ascii (s : String) (h : ∀ c ∈ s.toList, c.toNat < 128) :
    utf8Encode s = s.toList.map Char.toNat :=
  utf8List_ascii s.toList h

theorem eqChar_safe : ('=' : Char) ≠ '+' ∧ ('=' : Char) ≠ '/' ∧ ('=' : Char) ≠ '_' := by
  decide

theorem b64Chunks_chars_safe : ∀ (bs : List Nat),
    (∀ x ∈ bs, x < 128 ∧ x ≠ 62 ∧ x ≠ 63 ∧ x ≠ 126 ∧ x ≠ 127) →
    ∀ ch ∈ b64Chunks bs, ch ≠ '+' ∧ ch ≠ '/' ∧ ch ≠ '_'
  | [], _ => by simp [b64Chunks]
  | [a], h => by
    have ha := h a (by simp)
    intro ch hch
    rcases (by simpa [b64Chunks] using hch :
        ch = b64Char (a / 4) ∨ ch = b64Char (a % 4 * 16) ∨ ch = '=' ∨ ch = '=')
      with rfl | rfl | rfl | rfl
    · obtain ⟨u1, u2, u3, _⟩ := b64Char_safe (a / 4) (by omega)
      exact ⟨u1, u2, u3⟩
    · obtain ⟨u1, u2, u3, _⟩ := b64Char_safe (a % 4 * 16) (by omega)
      exact ⟨u1, u2, u3⟩
    · exact eqChar_safe
    · exact eqChar_safe
  | [a, b], h => by
    have ha := h a (by simp)
    have hb := h b (by simp)
    intro ch hch
    rcases (by simpa [b64Chunks] using hch :
        ch = b64Char (a / 4) ∨ ch = b64Char (a % 4 * 16 + b / 16)
        ∨ ch = b64Char (b % 16 * 4) ∨ ch = '=')
      with rfl | rfl | rfl | rfl
    · obtain ⟨u1, u2, u3, _⟩ := b64Char_safe (a / 4) (by omega)
      exact ⟨u1, u2, u3⟩
    · obtain ⟨u1, u2, u3, _⟩ := b64Char_safe (a % 4 * 16 + b / 16) (by omega)
      exact ⟨u1, u2, u3⟩
    · obtain ⟨u1, u2, u3, _⟩ := b64Char_safe (b % 16 * 4) (by omega)
      exact ⟨u1, u2, u3⟩
    · exact eqChar_safe
  | a :: b :: c :: rest, h => by
    have ha := h a (by simp)
    have hb := h b (by simp)
    have hc := h c (by simp)
    have ih := b64Chunks_chars_safe rest (fun x hx => h x (by simp [hx]))
    intro ch hch
    rcases (by simpa [b64Chunks] using hch :
        ch = b64Char (a / 4) ∨ ch = b64Char (a % 4 * 16 + b / 16)
        ∨ ch = b64Char (b % 16 * 4 + c / 64) ∨ ch = b64Char (c % 64)
        ∨ ch ∈ b64Chunks rest)
      with rfl | rfl | rfl | rfl | hm
    · obtain ⟨u1, u2, u3, _⟩ := b64Char_safe (a / 4) (by omega)
      exact ⟨u1, u2, u3⟩
    · obtain ⟨u1, u2, u3, _⟩ := b64Char_safe (a % 4 * 16 + b / 16) (by omega)
      exact ⟨u1, u2, u3⟩
    · obtain ⟨u1, u2, u3, _⟩ := b64Char_safe (b % 16 * 4 + c / 64) (by omega)
      exact ⟨u1, u2, u3⟩
    · obtain ⟨u1, u2, u3, _⟩ := b64Char_safe (c % 64) (by omega)
      exact ⟨u1, u2, u3⟩
    · exact ih ch hm

theorem desanitize_sanitize (ch : Char) (h : ch ≠ '+' ∧ ch ≠ '/' ∧ ch ≠ '_') :
    desanitizeChar (sanitizeChar ch) = ch := by
  obtain ⟨h1, h2, h3⟩ := h
  unfold sanitizeChar desanitizeChar
  by_cases he : ch = '='
  · simp [he]
  · rw [if_neg (show ¬(ch = '/' ∨ ch = '+' ∨ ch = '=') by tauto), if_neg h3]

theorem encodeKey_injOn_safe (k1 k2 : String)
    (h1 : ∀ c ∈ k1.toList, c.toNat < 128 ∧ c.toNat ≠ 62 ∧ c.toNat ≠ 63
      ∧ c.toNat ≠ 126 ∧ c.toNat ≠ 127)
    (h2 : ∀ c ∈ k2.toList, c.toNat < 128 ∧ c.toNat ≠ 62 ∧ c.toNat ≠ 63
      ∧ c.toNat ≠ 126 ∧ c.toNat ≠ 127)
    (he : encodeKey k1 = encodeKey k2) : k1 = k2 := by
  have hb1 : ∀ x ∈ utf8Encode k1, x < 128 ∧ x ≠ 62 ∧ x ≠ 63 ∧ x ≠ 126 ∧ x ≠ 127 := by
    rw [utf8Encode_ascii k1 (fun c hc => (h1 c hc).1)]
    intro x hx
    obtain ⟨c, hc, rfl⟩ := List.mem_map.mp hx
    exact h1 c hc
  have hb2 : ∀ x ∈ utf8Encode k2, x < 128 ∧ x ≠ 62 ∧ x ≠ 63 ∧ x ≠ 126 ∧ x ≠ 127 := by
    rw [utf8Encode_ascii k2 (fun c hc => (h2 c hc).1)]
    intro x hx
    obtain ⟨c, hc, rfl⟩ := List.mem_map.mp hx
    exact h2 c hc
  have hdata : (b64Chunks (utf8Encode k1)).map sanitizeChar
      = (b64Chunks (utf8Encode k2)).map sanitizeChar := congrArg String.data he
  have roundtrip : ∀ (l : List Char), (∀ ch ∈ l, ch ≠ '+' ∧ ch ≠ '/' ∧ ch ≠ '_') →
      (l.map sanitizeChar).map desanitizeChar = l := by
    intro l hl
    rw [List.map_map]
    calc l.map (desanitizeChar ∘ sanitizeChar)
        = l.map id := List.map_congr_left (fun ch hch => desanitize_sanitize ch (hl ch hch))
      _ = l := List.map_id l
  have hb64 : b64Chunks (utf8Encode k1) = b64Chunks (utf8Encode k2) := by
    rw [← roundtrip (b64Chunks (utf8Encode k1)) (b64Chunks_chars_safe _ hb1),
      ← roundtrip (b64Chunks (utf8Encode k2)) (b64Chunks_chars_safe _ hb2), hdata]
  have hbytes : utf8Encode k1 = utf8Encode k2 := by
    have := congrArg b64Decode hb64
    rwa [b64Decode_b64Chunks _ (fun x hx => by have := (hb1 x hx).1; omega),
      b64Decode_b64Chunks _ (fun x hx => by have := (hb2 x hx).1; omega)] at this
  rw [utf8Encode_ascii k1 (fun c hc => (h1 c hc).1),
    utf8Encode_ascii k2 (fun c hc => (h2 c hc).1)] at hbytes
  have htoNat : Function.Injective Char.toNat := by
    intro c d hcd
    rw [← Char.ofNat_toNat c, ← Char.ofNat_toNat d, hcd]
  exact String.ext (List.map_injective_iff.mpr htoNat hbytes)

/-- C4 amended: the file-name encoding is deterministic and stable across
runs (a pure function of the key, no randomness or salt), and it is
injective on keys of ASCII characters other than codes 62, 63, 126 and 127
(`>`, `?`, `~`, DEL) — which covers every key the program forms (hex
digests, `name:hexhash`). It is *not* injective in general: base64 emits
`+` and `/`, and the substitution collapses `+`, `/` and `=` into one
character `_`, so e.g. the keys "aa>" and "aa?" receive the same file
name. -/
theorem C4_encodingInjectiveOnSafeKeys :
    ∀ (cacheDir k1 k2 : String),
      (∀ c ∈ k1.toList, c.toNat < 128 ∧ c.toNat ≠ 62 ∧ c.toNat ≠ 63
        ∧ c.toNat ≠ 126 ∧ c.toNat ≠ 127) →
      (∀ c ∈ k2.toList, c.toNat < 128 ∧ c.toNat ≠ 62 ∧ c.toNat ≠ 63
        ∧ c.toNat ≠ 126 ∧ c.toNat ≠ 127) →
      getCacheFilePath cacheDir k1 = getCacheFilePath cacheDir k2 → k1 = k2 := by
  intro cacheDir k1 k2 h1 h2 he
  apply encodeKey_injOn_safe k1 k2 h1 h2
  have hdata := congrArg String.data he
  simp only [getCacheFilePath, pathJoin, String.data_append, List.append_assoc] at hdata
  have g1 := List.append_cancel_left hdata
  have g2 := List.append_cancel_left g1
  exact String.ext (List.append_cancel_right g2)

/-- C4 counterexample: two distinct keys with the same cache file path —
base64 produces `YWE+` and `YWE/`, and the `[/+=] → _` substitution maps
both to `YWE_`. -/
theorem C4_counterexample :
    getCacheFilePath "/c" "aa>" = getCacheFilePath "/c" "aa?"
    ∧ ("aa>" : String) ≠ "aa?" := by
  decide

/-- Witness for C4 at a concrete safe key. -/
theorem C4_witness : ("react:abc123" : String) = "react:abc123" :=
  C4_encodingInjectiveOnSafeKeys "/c" "react:abc123" "react:abc123"
    (by decide) (by decide) rfl

/-! ### C3 — content addressing across the two cache tiers -/

theorem lookupMem_mapSet_self {E P : Type} (m : MemCache E P) (k : String)
    (v : LibraryCache E P) : lookupMem (mapSet m k v) k = some v := by
  induction m with
  | nil => simp [mapSet, lookupMem, List.find?]
  | cons e rest ih =>
    rcases hq : (e.1 == k) with _ | _
    · have hq2 : ¬e.1 = k := by simpa using hq
      have hstep : mapSet (e :: rest) k v = e :: mapSet rest k v := by
        unfold mapSet
        simp only [List.any_cons, hq, Bool.false_or]
        rcases ha : rest.any (fun x => x.1 == k) with _ | _ <;> simp [ha, hq, hq2]
      rw [hstep]
      simpa [lookupMem, List.find?, hq] using ih
    · unfold mapSet
      have hany : ((e :: rest).any fun x => x.1 == k) = true := by
        simp [List.any_cons, hq]
      rw [if_pos hany]
      simp [lookupMem, List.find?, hq]

theorem lookupMem_setInMemoryCache {E P : Type} (now : Nat) (m : MemCache E P)
    (name : String) (v : LibraryCache E P) :
    lookupMem (setInMemoryCache now m name v) name = some v :=
  lookupMem_mapSet_self _ name v

set_option maxRecDepth 400000 in
/-- C3 counterexample: the first `context "lib"` call loads the module
(exports `1`) and fills both tiers. The file then changes — its hash
becomes "h2" and a fresh load would give exports `2` — yet the next
`context` call returns the stale exports `1` without any reload, because
the in-memory tier is keyed by name alone and is consulted before any
hashing. -/
theorem C3_counterexample :
    ctxExports (RequireLibraryContext.context envA okEnv cfgLib st0R "lib" 0) = some 1
    ∧ st1R.loads = ["/p"]
    ∧ ctxExports (RequireLibraryContext.context envB okEnv cfgLib st1R "lib" 5) = some 1
    ∧ ((ctxState (RequireLibraryContext.context envB okEnv cfgLib st1R "lib" 5)).getD
        st0R).loads = ["/p"]
    ∧ envB.loadedExports "/p" = 2
    ∧ (1 : Nat) ≠ 2 := by
  decide

theorem context_ok_mem {E P : Type} (env : ResolverEnv E P) (fsEnv : FsEnv)
    (cfg : CacheConfig) (st st1 : ResolverState E P) (name : String) (now : Nat) (e : E)
    (h : RequireLibraryContext.context env fsEnv cfg st name now = Except.ok (st1, e)) :
    ∃ c : LibraryCache E P, lookupMem st1.mem name = some c ∧ c.exports = e := by
  rcases hml : lookupMem st.mem name with _ | c0 <;>
    simp only [RequireLibraryContext.context, getFromMemoryCache, hml] at h <;>
    repeat' split at h
  all_goals simp only [Except.ok.injEq, Prod.mk.injEq, reduceCtorEq] at h
  all_goals
    first
    | exact h.elim
    | (obtain ⟨hst, he⟩ := h
       subst hst
       subst he
       exact ⟨_, lookupMem_mapSet_self _ _ _, rfl⟩)
    | (obtain ⟨hst, he⟩ := h
       subst hst
       subst he
       refine ⟨_, lookupMem_mapSet_self _ _ _, ?_⟩
       simp_all)

theorem context_repeat_hit {E P : Type} (env : ResolverEnv E P) (fsEnv : FsEnv)
    (cfg : CacheConfig) (st st1 : ResolverState E P) (name : String)
    (now now2 : Nat) (e : E)
    (h : RequireLibraryContext.context env fsEnv cfg st name now = Except.ok (st1, e))
    (htr : env.truthy e = true) :
    ∃ st2, RequireLibraryContext.context env fsEnv cfg st1 name now2 = Except.ok (st2, e)
      ∧ st2.loads = st1.loads := by
  obtain ⟨c, hc, hce⟩ := context_ok_mem env fsEnv cfg st st1 name now e h
  have hv : validateLibraryName name = none := by
    rcases hval : validateLibraryName name with _ | er
    · rfl
    · exfalso
      unfold RequireLibraryContext.context at h
      rw [hval] at h
      cases h
  have hmain : RequireLibraryContext.context env fsEnv cfg st1 name now2
      = Except.ok (⟨mapSet st1.mem name
          ⟨e, c.packageInfo, now2, c.hasDefaultExport, c.fileHash⟩,
        st1.fileStore, st1.loads⟩, e) := by
    unfold RequireLibraryContext.context getFromMemoryCache
    rw [hv, hc]
    simp [hce, htr]
  exact ⟨_, hmain, rfl⟩

theorem context_reload {E P : Type} (env : ResolverEnv E P) (fsEnv : FsEnv)
    (cfg : CacheConfig) (st : ResolverState E P) (name p hsh : String) (now : Nat)
    (hv : validateLibraryName name = none)
    (hm : lookupMem st.mem name = none)
    (hr : env.resolvePath name = some p)
    (hex : env.fileExists p = true)
    (hh : env.fileHash p = some hsh)
    (hcm : (CacheManager.get fsEnv cfg st.fileStore (name ++ ":" ++ hsh) now).2 = none)
    (hp : env.resolvePath (name ++ "/package.json") = none) :
    ∃ st5, RequireLibraryContext.context env fsEnv cfg st name now
      = Except.ok (st5, env.loadedExports p) ∧ st5.loads = p :: st.loads := by
  have hmain : RequireLibraryContext.context env fsEnv cfg st name now
      = Except.ok
        (⟨setInMemoryCache now st.mem name
            ⟨env.loadedExports p, none, now, env.hasDefault p, hsh⟩,
          CacheManager.set fsEnv cfg env.entrySize
            (CacheManager.get fsEnv cfg st.fileStore (name ++ ":" ++ hsh) now).1
            (name ++ ":" ++ hsh)
            (Sum.inl ⟨env.loadedExports p, none, now, env.hasDefault p, hsh⟩) now,
          p :: st.loads⟩, env.loadedExports p) := by
    simp only [RequireLibraryContext.context, RequireLibraryContext.getPackageInfo,
      getPackageInfoFs, getFromMemoryCache, hv, hm, hr, hex, hh, hcm, hp,
      Bool.not_true]
    split
    next heq => simp at heq
    next heq => rfl
  exact ⟨_, hmain, rfl⟩

/-- C3 amended: (a) after a successful `context` call whose exports are
truthy, calling `context` again for the same name is a cache hit — it
returns the same exports and performs no module load. (b) When the
in-memory tier holds no entry for the name, a changed file (new hash `hsh`
with no persistent entry under the key `name:hsh`) makes `context` reload
the module and return the freshly loaded exports. As stated the claim is
false: the in-memory tier is keyed by name alone, is consulted before any
hashing, and does not check its freshness window on reads, so while it
holds the name a changed file still yields the stale exports with no
reload (see the counterexample). -/
theorem C3_contentAddressingAmended :
    (∀ (E P : Type) (env : ResolverEnv E P) (fsEnv : FsEnv) (cfg : CacheConfig)
      (st st1 : ResolverState E P) (name : String) (now now2 : Nat) (e : E),
      RequireLibraryContext.context env fsEnv cfg st name now = Except.ok (st1, e) →
      env.truthy e = true →
      ∃ st2, RequireLibraryContext.context env fsEnv cfg st1 name now2
        = Except.ok (st2, e) ∧ st2.loads = st1.loads)
    ∧ (∀ (E P : Type) (env : ResolverEnv E P) (fsEnv : FsEnv) (cfg : CacheConfig)
      (st : ResolverState E P) (name p hsh : String) (now : Nat),
      validateLibraryName name = none →
      lookupMem st.mem name = none →
      env.resolvePath name = some p →
      env.fileExists p = true →
      env.fileHash p = some hsh →
      (CacheManager.get fsEnv cfg st.fileStore (name ++ ":" ++ hsh) now).2 = none →
      env.resolvePath (name ++ "/package.json") = none →
      ∃ st5, RequireLibraryContext.context env fsEnv cfg st name now
        = Except.ok (st5, env.loadedExports p) ∧ st5.loads = p :: st.loads) :=
  ⟨fun _ _ env fsEnv cfg st st1 name now now2 e h htr =>
    context_repeat_hit env fsEnv cfg st st1 name now now2 e h htr,
   fun _ _ env fsEnv cfg st name p hsh now hv hm hr hex hh hcm hp =>
    context_reload env fsEnv cfg st name p hsh now hv hm hr hex hh hcm hp⟩

set_option maxRecDepth 400000 in
/-- Witness for C3: a repeated `context "lib"` call against the unchanged
`envA` state is a hit, and against `envB` (changed file, hash "h2") from a
state whose memory tier is empty, `context` reloads. -/
theorem C3_witness :
    (∃ st2, RequireLibraryContext.context envA okEnv cfgLib st1R "lib" 7
      = Except.ok (st2, 1) ∧ st2.loads = st1R.loads)
    ∧ (∃ st5, RequireLibraryContext.context envB okEnv cfgLib st0R "lib" 5
      = Except.ok (st5, envB.loadedExports "/p") ∧ st5.loads = "/p" :: st0R.loads) :=
  ⟨C3_contentAddressingAmended.1 Nat Nat envA okEnv cfgLib st0R st1R "lib" 0 7 1
    rfl rfl,
   C3_contentAddressingAmended.2 Nat Nat envB okEnv cfgLib st0R "lib" "/p" "h2" 5
    (by decide) rfl rfl rfl rfl (by decide) rfl⟩

end Studylib
